import Mathlib

/-!
Verification of the `cache_control` Rust crate (src/lib.rs): a parser for the
HTTP Cache-Control header.  The Rust functions `CacheControl::from_value` and
`CacheControl::from_header` are shallowly embedded below as executable Lean
functions over `List Char` / `String`, mirroring the source line by line:
`str::split`, `str::trim`, `str::split_once`, `eq_ignore_ascii_case` and
`u64::from_str` are each given a faithful model.
-/

/-- Model of Rust `Cachability` (src/lib.rs lines 16-28). -/
inductive Cachability where
  | Public
  | Private
  | NoCache
  | OnlyIfCached
deriving DecidableEq

/-- Model of the Rust `CacheControl` struct (src/lib.rs lines 32-59).
Durations are modelled by their whole number of seconds (`Duration::from_secs`
takes a `u64`; the parser only ever constructs whole-second durations). -/
structure CacheControl where
  cachability : Option Cachability := none
  max_age : Option Nat := none
  s_max_age : Option Nat := none
  max_stale : Option Nat := none
  min_fresh : Option Nat := none
  must_revalidate : Bool := false
  proxy_revalidate : Bool := false
  immutable : Bool := false
  no_store : Bool := false
  no_transform : Bool := false
deriving DecidableEq

/-- Rust `char::is_whitespace`: the Unicode White_Space property. -/
def isRustWhitespace (c : Char) : Bool :=
  let n := c.toNat
  (9 ≤ n && n ≤ 13) || n = 32 || n = 0x85 || n = 0xA0 || n = 0x1680 ||
  (0x2000 ≤ n && n ≤ 0x200A) || n = 0x2028 || n = 0x2029 || n = 0x202F ||
  n = 0x205F || n = 0x3000

/-- Model of Rust `str::trim`: remove leading and trailing whitespace. -/
def trimChars (l : List Char) : List Char :=
  ((l.dropWhile isRustWhitespace).reverse.dropWhile isRustWhitespace).reverse

/-- Model of Rust `str::split(sep)`: split on every occurrence of `sep`,
keeping empty segments; the empty string yields one empty segment. -/
def splitOn (c : Char) : List Char → List (List Char)
  | [] => [[]]
  | x :: xs =>
    if x = c then [] :: splitOn c xs
    else
      match splitOn c xs with
      | [] => [[x]]
      | t :: ts => (x :: t) :: ts

/-- ASCII decimal digit test (`char::is_ascii_digit`). -/
def isAsciiDigit (c : Char) : Bool :=
  48 ≤ c.toNat && c.toNat ≤ 57

/-- Accumulator loop of decimal parsing: `none` when any character is not an
ASCII digit. -/
def digitsValAux (acc : Nat) : List Char → Option Nat
  | [] => some acc
  | c :: cs => if isAsciiDigit c then digitsValAux (acc * 10 + (c.toNat - 48)) cs else none

/-- Value of a digit string, most significant first; `none` when any
character is not an ASCII digit. -/
def digitsVal (l : List Char) : Option Nat :=
  digitsValAux 0 l

/-- The digit-accumulation part of `u64::from_str`: at least one ASCII digit,
rejecting values of `2 ^ 64` or more (Rust reports those as overflow errors). -/
def parseU64Core (ds : List Char) : Option Nat :=
  if ds.isEmpty then none
  else
    match digitsVal ds with
    | some n => if n < 2 ^ 64 then some n else none
    | none => none

/-- Model of Rust `str::parse::<u64>()` (`u64::from_str`): an optional leading
plus sign, then one or more ASCII digits. -/
def parseU64 (s : List Char) : Option Nat :=
  match s with
  | '+' :: rest => parseU64Core rest
  | _ => parseU64Core s

/-- Model of src/lib.rs lines 74-77: `token.split('=').map(|s| s.trim())`,
taking the first segment as the key and the second (when present) as the
value; segments after the second are dropped by the two `split.next()` calls. -/
def keyVal (token : List Char) : List Char × Option (List Char) :=
  match (splitOn '=' token).map trimChars with
  | [] => ([], none)
  | [k] => (k, none)
  | k :: v :: _ => (k, some v)

/-- One iteration of the `for token in value.split(',')` loop body of
`CacheControl::from_value` (src/lib.rs lines 74-102): dispatch on the key and
update the record, or fail (`return None`) on a numeric directive whose value
is missing or unparsable. -/
def processToken (ret : CacheControl) (token : List Char) : Option CacheControl :=
  let kv := keyVal token
  let key := kv.1
  let val := kv.2
  if key = ("public").data then some { ret with cachability := some Cachability.Public }
  else if key = ("private").data then some { ret with cachability := some Cachability.Private }
  else if key = ("no-cache").data then some { ret with cachability := some Cachability.NoCache }
  else if key = ("only-if-cached").data then
    some { ret with cachability := some Cachability.OnlyIfCached }
  else if key = ("max-age").data then
    match val.bind parseU64 with
    | some secs => some { ret with max_age := some secs }
    | none => none
  else if key = ("max-stale").data then
    match val.bind parseU64 with
    | some secs => some { ret with max_stale := some secs }
    | none => none
  else if key = ("min-fresh").data then
    match val.bind parseU64 with
    | some secs => some { ret with min_fresh := some secs }
    | none => none
  else if key = ("must-revalidate").data then some { ret with must_revalidate := true }
  else if key = ("proxy-revalidate").data then some { ret with proxy_revalidate := true }
  else if key = ("immutable").data then some { ret with immutable := true }
  else if key = ("no-store").data then some { ret with no_store := true }
  else if key = ("no-transform").data then some { ret with no_transform := true }
  else some ret

/-- The token loop of `CacheControl::from_value`: fold `processToken` over the
tokens, aborting with `none` as soon as one token fails. -/
def fromValueLoop (ret : CacheControl) : List (List Char) → Option CacheControl
  | [] => some ret
  | t :: ts =>
    match processToken ret t with
    | some r => fromValueLoop r ts
    | none => none

/-- `CacheControl::from_value` on a character list. -/
def fromValueChars (value : List Char) : Option CacheControl :=
  fromValueLoop {} (splitOn ',' value)

/-- Model of `CacheControl::from_value` (src/lib.rs lines 71-105). -/
def from_value (value : String) : Option CacheControl :=
  fromValueChars value.data

/-- Model of Rust `str::split_once(sep)`: split at the first occurrence of
`sep` into the part before and the part after; `none` when `sep` is absent. -/
def splitOnceAux (c : Char) : List Char → Option (List Char × List Char)
  | [] => none
  | x :: xs =>
    if x = c then some ([], xs)
    else
      match splitOnceAux c xs with
      | some p => some (x :: p.1, p.2)
      | none => none

/-- Rust `char::to_ascii_lowercase`. -/
def toAsciiLower (ch : Char) : Char :=
  if 65 ≤ ch.toNat && ch.toNat ≤ 90 then Char.ofNat (ch.toNat + 32) else ch

/-- Model of Rust `str::eq_ignore_ascii_case`. -/
def eqIgnoreAsciiCase (a b : List Char) : Bool :=
  a.map toAsciiLower == b.map toAsciiLower

/-- Model of `CacheControl::from_header` (src/lib.rs lines 108-114). -/
def from_header (value : String) : Option CacheControl :=
  match splitOnceAux ':' value.data with
  | none => none
  | some p =>
    if eqIgnoreAsciiCase (trimChars p.1) ("Cache-Control").data then fromValueChars p.2
    else none

/-- A token on which the loop of `from_value` aborts: its key is one of the
three numeric directives and its value is absent or fails `u64` parsing. -/
def badNumericToken (t : List Char) : Bool :=
  ((keyVal t).1 == ("max-age").data || (keyVal t).1 == ("max-stale").data ||
    (keyVal t).1 == ("min-fresh").data)
  && ((keyVal t).2.bind parseU64).isNone

/-- The cachability effect of a single token: the variant it sets, if any. -/
def tokenCachability (t : List Char) : Option Cachability :=
  if (keyVal t).1 = ("public").data then some Cachability.Public
  else if (keyVal t).1 = ("private").data then some Cachability.Private
  else if (keyVal t).1 = ("no-cache").data then some Cachability.NoCache
  else if (keyVal t).1 = ("only-if-cached").data then some Cachability.OnlyIfCached
  else none

/-- The `max_age` effect of a single token. -/
def tokenMaxAge (t : List Char) : Option Nat :=
  if (keyVal t).1 = ("max-age").data then (keyVal t).2.bind parseU64 else none

/-- The `max_stale` effect of a single token. -/
def tokenMaxStale (t : List Char) : Option Nat :=
  if (keyVal t).1 = ("max-stale").data then (keyVal t).2.bind parseU64 else none

/-- The `min_fresh` effect of a single token. -/
def tokenMinFresh (t : List Char) : Option Nat :=
  if (keyVal t).1 = ("min-fresh").data then (keyVal t).2.bind parseU64 else none

/-- Whether the token's (trimmed) key equals the given directive name. -/
def hasKey (t : List Char) (k : List Char) : Bool :=
  (keyVal t).1 == k

/-- Whether a key is in the parser's fixed directive vocabulary. -/
def knownKey (k : List Char) : Bool :=
  k == ("public").data || k == ("private").data || k == ("no-cache").data ||
  k == ("only-if-cached").data || k == ("max-age").data || k == ("max-stale").data ||
  k == ("min-fresh").data || k == ("must-revalidate").data ||
  k == ("proxy-revalidate").data || k == ("immutable").data ||
  k == ("no-store").data || k == ("no-transform").data

/-- `orO a b` is `a` when present, else `b` (last-write-wins accumulator). -/
def orO (a b : Option α) : Option α :=
  match a with
  | some x => some x
  | none => b

/-! ### Per-key behavior of one loop iteration -/

theorem pt_public (s : CacheControl) (t : List Char) (hk : (keyVal t).1 = ("public").data) :
    processToken s t = some { s with cachability := some Cachability.Public } := by
  simp [processToken, hk]

theorem pt_private (s : CacheControl) (t : List Char) (hk : (keyVal t).1 = ("private").data) :
    processToken s t = some { s with cachability := some Cachability.Private } := by
  simp [processToken, hk]

theorem pt_noCache (s : CacheControl) (t : List Char) (hk : (keyVal t).1 = ("no-cache").data) :
    processToken s t = some { s with cachability := some Cachability.NoCache } := by
  simp [processToken, hk]

theorem pt_onlyIfCached (s : CacheControl) (t : List Char)
    (hk : (keyVal t).1 = ("only-if-cached").data) :
    processToken s t = some { s with cachability := some Cachability.OnlyIfCached } := by
  simp [processToken, hk]

theorem pt_maxAge (s : CacheControl) (t : List Char) (n : Nat)
    (hk : (keyVal t).1 = ("max-age").data) (hv : (keyVal t).2.bind parseU64 = some n) :
    processToken s t = some { s with max_age := some n } := by
  simp [processToken, hk, hv]

theorem pt_maxAge_bad (s : CacheControl) (t : List Char)
    (hk : (keyVal t).1 = ("max-age").data) (hv : (keyVal t).2.bind parseU64 = none) :
    processToken s t = none := by
  simp [processToken, hk, hv]

theorem pt_maxStale (s : CacheControl) (t : List Char) (n : Nat)
    (hk : (keyVal t).1 = ("max-stale").data) (hv : (keyVal t).2.bind parseU64 = some n) :
    processToken s t = some { s with max_stale := some n } := by
  simp [processToken, hk, hv]

theorem pt_maxStale_bad (s : CacheControl) (t : List Char)
    (hk : (keyVal t).1 = ("max-stale").data) (hv : (keyVal t).2.bind parseU64 = none) :
    processToken s t = none := by
  simp [processToken, hk, hv]

theorem pt_minFresh (s : CacheControl) (t : List Char) (n : Nat)
    (hk : (keyVal t).1 = ("min-fresh").data) (hv : (keyVal t).2.bind parseU64 = some n) :
    processToken s t = some { s with min_fresh := some n } := by
  simp [processToken, hk, hv]

theorem pt_minFresh_bad (s : CacheControl) (t : List Char)
    (hk : (keyVal t).1 = ("min-fresh").data) (hv : (keyVal t).2.bind parseU64 = none) :
    processToken s t = none := by
  simp [processToken, hk, hv]

theorem pt_mustRevalidate (s : CacheControl) (t : List Char)
    (hk : (keyVal t).1 = ("must-revalidate").data) :
    processToken s t = some { s with must_revalidate := true } := by
  simp [processToken, hk]

theorem pt_proxyRevalidate (s : CacheControl) (t : List Char)
    (hk : (keyVal t).1 = ("proxy-revalidate").data) :
    processToken s t = some { s with proxy_revalidate := true } := by
  simp [processToken, hk]

theorem pt_immutable (s : CacheControl) (t : List Char)
    (hk : (keyVal t).1 = ("immutable").data) :
    processToken s t = some { s with immutable := true } := by
  simp [processToken, hk]

theorem pt_noStore (s : CacheControl) (t : List Char)
    (hk : (keyVal t).1 = ("no-store").data) :
    processToken s t = some { s with no_store := true } := by
  simp [processToken, hk]

theorem pt_noTransform (s : CacheControl) (t : List Char)
    (hk : (keyVal t).1 = ("no-transform").data) :
    processToken s t = some { s with no_transform := true } := by
  simp [processToken, hk]

theorem pt_unknown (s : CacheControl) (t : List Char) (hk : knownKey (keyVal t).1 = false) :
    processToken s t = some s := by
  simp only [knownKey, Bool.or_eq_false_iff, beq_eq_false_iff_ne, ne_eq] at hk
  obtain ⟨⟨⟨⟨⟨⟨⟨⟨⟨⟨⟨h1, h2⟩, h3⟩, h4⟩, h5⟩, h6⟩, h7⟩, h8⟩, h9⟩, h10⟩, h11⟩, h12⟩ := hk
  simp [processToken, h1, h2, h3, h4, h5, h6, h7, h8, h9, h10, h11, h12]

/-! ### Characterization of one loop iteration and of the whole loop -/

theorem fromValueLoop_cons_some (s r : CacheControl) (t : List Char) (ts : List (List Char))
    (hp : processToken s t = some r) :
    fromValueLoop s (t :: ts) = fromValueLoop r ts := by
  simp [fromValueLoop, hp]

theorem fromValueLoop_cons_none (s : CacheControl) (t : List Char) (ts : List (List Char))
    (hp : processToken s t = none) :
    fromValueLoop s (t :: ts) = none := by
  simp [fromValueLoop, hp]

theorem orO_assoc (a b c : Option α) : orO (orO a b) c = orO a (orO b c) := by
  cases a <;> rfl

theorem orO_none (b : Option α) : orO none b = b := rfl

theorem getLast?_cons_orO (x : α) (l : List α) :
    (x :: l).getLast? = orO l.getLast? (some x) := by
  cases l with
  | nil => rfl
  | cons y ys =>
    rw [List.getLast?_cons_cons]
    have hs : ((y :: ys).getLast?).isSome := by
      rw [List.getLast?_isSome]
      simp
    obtain ⟨z, hz⟩ := Option.isSome_iff_exists.mp hs
    rw [hz]
    rfl

theorem orO_filterMap_cons (f : List Char → Option α) (t : List Char)
    (ts : List (List Char)) (b : Option α) :
    orO ((List.filterMap f (t :: ts)).getLast?) b =
      orO ((List.filterMap f ts).getLast?) (orO (f t) b) := by
  rw [List.filterMap_cons]
  cases hft : f t with
  | none => simp [orO]
  | some x => rw [getLast?_cons_orO, orO_assoc]

theorem processToken_none_iff (s : CacheControl) (t : List Char) :
    processToken s t = none ↔ badNumericToken t = true := by
  by_cases h1 : (keyVal t).1 = ("public").data
  · rw [pt_public s t h1]; simp [badNumericToken, h1]
  by_cases h2 : (keyVal t).1 = ("private").data
  · rw [pt_private s t h2]; simp [badNumericToken, h2]
  by_cases h3 : (keyVal t).1 = ("no-cache").data
  · rw [pt_noCache s t h3]; simp [badNumericToken, h3]
  by_cases h4 : (keyVal t).1 = ("only-if-cached").data
  · rw [pt_onlyIfCached s t h4]; simp [badNumericToken, h4]
  by_cases h5 : (keyVal t).1 = ("max-age").data
  · cases hv : (keyVal t).2.bind parseU64 with
    | none => rw [pt_maxAge_bad s t h5 hv]; simp [badNumericToken, h5, hv]
    | some n => rw [pt_maxAge s t n h5 hv]; simp [badNumericToken, h5, hv]
  by_cases h6 : (keyVal t).1 = ("max-stale").data
  · cases hv : (keyVal t).2.bind parseU64 with
    | none => rw [pt_maxStale_bad s t h6 hv]; simp [badNumericToken, h6, hv]
    | some n => rw [pt_maxStale s t n h6 hv]; simp [badNumericToken, h6, hv]
  by_cases h7 : (keyVal t).1 = ("min-fresh").data
  · cases hv : (keyVal t).2.bind parseU64 with
    | none => rw [pt_minFresh_bad s t h7 hv]; simp [badNumericToken, h7, hv]
    | some n => rw [pt_minFresh s t n h7 hv]; simp [badNumericToken, h7, hv]
  by_cases h8 : (keyVal t).1 = ("must-revalidate").data
  · rw [pt_mustRevalidate s t h8]; simp [badNumericToken, h8]
  by_cases h9 : (keyVal t).1 = ("proxy-revalidate").data
  · rw [pt_proxyRevalidate s t h9]; simp [badNumericToken, h9]
  by_cases h10 : (keyVal t).1 = ("immutable").data
  · rw [pt_immutable s t h10]; simp [badNumericToken, h10]
  by_cases h11 : (keyVal t).1 = ("no-store").data
  · rw [pt_noStore s t h11]; simp [badNumericToken, h11]
  by_cases h12 : (keyVal t).1 = ("no-transform").data
  · rw [pt_noTransform s t h12]; simp [badNumericToken, h12]
  have hk : knownKey (keyVal t).1 = false := by
    simp [knownKey, beq_eq_false_iff_ne, h1, h2, h3, h4, h5, h6, h7, h8, h9, h10, h11, h12]
  rw [pt_unknown s t hk]
  simp [badNumericToken, beq_eq_false_iff_ne, h5, h6, h7]

theorem processToken_fields (s r : CacheControl) (t : List Char)
    (h : processToken s t = some r) :
    r.cachability = orO (tokenCachability t) s.cachability ∧
    r.max_age = orO (tokenMaxAge t) s.max_age ∧
    r.s_max_age = s.s_max_age ∧
    r.max_stale = orO (tokenMaxStale t) s.max_stale ∧
    r.min_fresh = orO (tokenMinFresh t) s.min_fresh ∧
    r.must_revalidate = (s.must_revalidate || hasKey t (("must-revalidate").data)) ∧
    r.proxy_revalidate = (s.proxy_revalidate || hasKey t (("proxy-revalidate").data)) ∧
    r.immutable = (s.immutable || hasKey t (("immutable").data)) ∧
    r.no_store = (s.no_store || hasKey t (("no-store").data)) ∧
    r.no_transform = (s.no_transform || hasKey t (("no-transform").data)) := by
  by_cases h1 : (keyVal t).1 = ("public").data
  · rw [pt_public s t h1] at h
    injection h with h
    subst h
    simp [tokenCachability, tokenMaxAge, tokenMaxStale, tokenMinFresh, hasKey, orO, h1]
  by_cases h2 : (keyVal t).1 = ("private").data
  · rw [pt_private s t h2] at h
    injection h with h
    subst h
    simp [tokenCachability, tokenMaxAge, tokenMaxStale, tokenMinFresh, hasKey, orO, h2]
  by_cases h3 : (keyVal t).1 = ("no-cache").data
  · rw [pt_noCache s t h3] at h
    injection h with h
    subst h
    simp [tokenCachability, tokenMaxAge, tokenMaxStale, tokenMinFresh, hasKey, orO, h3]
  by_cases h4 : (keyVal t).1 = ("only-if-cached").data
  · rw [pt_onlyIfCached s t h4] at h
    injection h with h
    subst h
    simp [tokenCachability, tokenMaxAge, tokenMaxStale, tokenMinFresh, hasKey, orO, h4]
  by_cases h5 : (keyVal t).1 = ("max-age").data
  · cases hv : (keyVal t).2.bind parseU64 with
    | none => rw [pt_maxAge_bad s t h5 hv] at h; exact Option.noConfusion h
    | some n =>
      rw [pt_maxAge s t n h5 hv] at h
      injection h with h
      subst h
      simp [tokenCachability, tokenMaxAge, tokenMaxStale, tokenMinFresh, hasKey, orO, h5, hv]
  by_cases h6 : (keyVal t).1 = ("max-stale").data
  · cases hv : (keyVal t).2.bind parseU64 with
    | none => rw [pt_maxStale_bad s t h6 hv] at h; exact Option.noConfusion h
    | some n =>
      rw [pt_maxStale s t n h6 hv] at h
      injection h with h
      subst h
      simp [tokenCachability, tokenMaxAge, tokenMaxStale, tokenMinFresh, hasKey, orO, h6, hv]
  by_cases h7 : (keyVal t).1 = ("min-fresh").data
  · cases hv : (keyVal t).2.bind parseU64 with
    | none => rw [pt_minFresh_bad s t h7 hv] at h; exact Option.noConfusion h
    | some n =>
      rw [pt_minFresh s t n h7 hv] at h
      injection h with h
      subst h
      simp [tokenCachability, tokenMaxAge, tokenMaxStale, tokenMinFresh, hasKey, orO, h7, hv]
  by_cases h8 : (keyVal t).1 = ("must-revalidate").data
  · rw [pt_mustRevalidate s t h8] at h
    injection h with h
    subst h
    simp [tokenCachability, tokenMaxAge, tokenMaxStale, tokenMinFresh, hasKey, orO, h8]
  by_cases h9 : (keyVal t).1 = ("proxy-revalidate").data
  · rw [pt_proxyRevalidate s t h9] at h
    injection h with h
    subst h
    simp [tokenCachability, tokenMaxAge, tokenMaxStale, tokenMinFresh, hasKey, orO, h9]
  by_cases h10 : (keyVal t).1 = ("immutable").data
  · rw [pt_immutable s t h10] at h
    injection h with h
    subst h
    simp [tokenCachability, tokenMaxAge, tokenMaxStale, tokenMinFresh, hasKey, orO, h10]
  by_cases h11 : (keyVal t).1 = ("no-store").data
  · rw [pt_noStore s t h11] at h
    injection h with h
    subst h
    simp [tokenCachability, tokenMaxAge, tokenMaxStale, tokenMinFresh, hasKey, orO, h11]
  by_cases h12 : (keyVal t).1 = ("no-transform").data
  · rw [pt_noTransform s t h12] at h
    injection h with h
    subst h
    simp [tokenCachability, tokenMaxAge, tokenMaxStale, tokenMinFresh, hasKey, orO, h12]
  have hk : knownKey (keyVal t).1 = false := by
    simp [knownKey, beq_eq_false_iff_ne, h1, h2, h3, h4, h5, h6, h7, h8, h9, h10, h11, h12]
  rw [pt_unknown s t hk] at h
  injection h with h
  subst h
  simp [tokenCachability, tokenMaxAge, tokenMaxStale, tokenMinFresh, hasKey, orO,
    beq_eq_false_iff_ne, h1, h2, h3, h4, h5, h6, h7, h8, h9, h10, h11, h12]

theorem fromValueLoop_none_iff (l : List (List Char)) :
    ∀ s : CacheControl,
      (fromValueLoop s l = none ↔ ∃ t ∈ l, badNumericToken t = true) := by
  induction l with
  | nil => intro s; simp [fromValueLoop]
  | cons t ts ih =>
    intro s
    cases hp : processToken s t with
    | none =>
      rw [fromValueLoop_cons_none s t ts hp]
      simp only [true_iff]
      exact ⟨t, by simp, (processToken_none_iff s t).mp hp⟩
    | some r =>
      rw [fromValueLoop_cons_some s r t ts hp, ih r]
      have hb : badNumericToken t = false := by
        have hiff := processToken_none_iff s t
        rw [hp] at hiff
        simpa using hiff
      simp [List.mem_cons, hb]

theorem fromValueLoop_fields (l : List (List Char)) :
    ∀ s r : CacheControl, fromValueLoop s l = some r →
      r.cachability = orO ((l.filterMap tokenCachability).getLast?) s.cachability ∧
      r.max_age = orO ((l.filterMap tokenMaxAge).getLast?) s.max_age ∧
      r.s_max_age = s.s_max_age ∧
      r.max_stale = orO ((l.filterMap tokenMaxStale).getLast?) s.max_stale ∧
      r.min_fresh = orO ((l.filterMap tokenMinFresh).getLast?) s.min_fresh ∧
      r.must_revalidate
        = (s.must_revalidate || l.any (fun t => hasKey t (("must-revalidate").data))) ∧
      r.proxy_revalidate
        = (s.proxy_revalidate || l.any (fun t => hasKey t (("proxy-revalidate").data))) ∧
      r.immutable = (s.immutable || l.any (fun t => hasKey t (("immutable").data))) ∧
      r.no_store = (s.no_store || l.any (fun t => hasKey t (("no-store").data))) ∧
      r.no_transform = (s.no_transform || l.any (fun t => hasKey t (("no-transform").data))) := by
  induction l with
  | nil =>
    intro s r h
    simp only [fromValueLoop, Option.some.injEq] at h
    subst h
    simp [orO]
  | cons t ts ih =>
    intro s r h
    cases hp : processToken s t with
    | none => rw [fromValueLoop_cons_none s t ts hp] at h; exact Option.noConfusion h
    | some m =>
      rw [fromValueLoop_cons_some s m t ts hp] at h
      obtain ⟨ic, ia, isa, ist, imf, imr, ipr, iim, ins, int⟩ := ih m r h
      obtain ⟨pc, pa, psa, pst, pmf, pmr, ppr, pim, pns, pnt⟩ := processToken_fields s m t hp
      refine ⟨?_, ?_, ?_, ?_, ?_, ?_, ?_, ?_, ?_, ?_⟩
      · rw [ic, pc, orO_filterMap_cons]
      · rw [ia, pa, orO_filterMap_cons]
      · rw [isa, psa]
      · rw [ist, pst, orO_filterMap_cons]
      · rw [imf, pmf, orO_filterMap_cons]
      · rw [imr, pmr, List.any_cons, Bool.or_assoc]
      · rw [ipr, ppr, List.any_cons, Bool.or_assoc]
      · rw [iim, pim, List.any_cons, Bool.or_assoc]
      · rw [ins, pns, List.any_cons, Bool.or_assoc]
      · rw [int, pnt, List.any_cons, Bool.or_assoc]

/-! ### Structure of the tokenizing helpers -/

theorem splitOn_no_sep (c : Char) (l : List Char) (h : c ∉ l) : splitOn c l = [l] := by
  induction l with
  | nil => rfl
  | cons x xs ih =>
    simp only [List.mem_cons, not_or] at h
    have hxc : ¬ x = c := fun hx => h.1 hx.symm
    simp [splitOn, hxc, ih h.2]

theorem splitOn_append (c : Char) (a b : List Char) (h : c ∉ a) :
    splitOn c (a ++ c :: b) = a :: splitOn c b := by
  induction a with
  | nil => simp [splitOn]
  | cons x xs ih =>
    simp only [List.mem_cons, not_or] at h
    have hxc : ¬ x = c := fun hx => h.1 hx.symm
    have ihh := ih h.2
    simp [splitOn, hxc, ihh]

theorem splitOn_head (c : Char) (l : List Char) :
    ∃ ts, splitOn c l = (l.takeWhile (fun x => x != c)) :: ts := by
  induction l with
  | nil => exact ⟨[], rfl⟩
  | cons x xs ih =>
    by_cases hxc : x = c
    · subst hxc
      exact ⟨splitOn x xs, by simp [splitOn, List.takeWhile_cons]⟩
    · obtain ⟨ts, hts⟩ := ih
      refine ⟨ts, ?_⟩
      simp [splitOn, hxc, hts, List.takeWhile_cons, bne_iff_ne]

theorem keyVal_no_eq (t : List Char) (h : ('=') ∉ t) : keyVal t = (trimChars t, none) := by
  rw [keyVal, splitOn_no_sep ('=') t h]
  rfl

theorem keyVal_with_eq (a b : List Char) (h : ('=') ∉ a) :
    keyVal (a ++ ('=') :: b)
      = (trimChars a, some (trimChars (b.takeWhile (fun x => x != ('='))))) := by
  obtain ⟨ts, hts⟩ := splitOn_head ('=') b
  rw [keyVal, splitOn_append ('=') a b h, hts]
  rfl

theorem splitOnceAux_no_sep (c : Char) (l : List Char) (h : c ∉ l) :
    splitOnceAux c l = none := by
  induction l with
  | nil => rfl
  | cons x xs ih =>
    simp only [List.mem_cons, not_or] at h
    have hxc : ¬ x = c := fun hx => h.1 hx.symm
    simp [splitOnceAux, hxc, ih h.2]

theorem splitOnceAux_append (c : Char) (a b : List Char) (h : c ∉ a) :
    splitOnceAux c (a ++ c :: b) = some (a, b) := by
  induction a with
  | nil => simp [splitOnceAux]
  | cons x xs ih =>
    simp only [List.mem_cons, not_or] at h
    have hxc : ¬ x = c := fun hx => h.1 hx.symm
    simp [splitOnceAux, hxc, ih h.2]

/-! ### ASCII lowercasing -/

theorem toNat_ofNat_lt {n : Nat} (h : n < 55296) : (Char.ofNat n).toNat = n := by
  rw [Char.ofNat, dif_pos (Or.inl h)]
  rfl

theorem toAsciiLower_toNat (c : Char) :
    (toAsciiLower c).toNat
      = if 65 ≤ c.toNat ∧ c.toNat ≤ 90 then c.toNat + 32 else c.toNat := by
  unfold toAsciiLower
  by_cases h : 65 ≤ c.toNat ∧ c.toNat ≤ 90
  · rw [if_pos (by simp [h.1, h.2]), if_pos h, toNat_ofNat_lt (by omega)]
  · rw [if_neg (by simpa [Bool.and_eq_true, decide_eq_true_eq] using h), if_neg h]

theorem toAsciiLower_not_upper (c : Char) :
    ¬ (65 ≤ (toAsciiLower c).toNat ∧ (toAsciiLower c).toNat ≤ 90) := by
  rw [toAsciiLower_toNat]
  split_ifs with h <;> omega

theorem toAsciiLower_idem (c : Char) : toAsciiLower (toAsciiLower c) = toAsciiLower c := by
  have h := toAsciiLower_not_upper c
  generalize hx : toAsciiLower c = x at h ⊢
  rw [toAsciiLower, if_neg (by simpa using h)]

theorem toAsciiLower_ne_colon (c : Char) (h : ¬ c = (':')) : ¬ toAsciiLower c = (':') := by
  rw [toAsciiLower]
  split_ifs with hb
  · simp only [Bool.and_eq_true, decide_eq_true_eq] at hb
    intro he
    have hn := congrArg Char.toNat he
    rw [toNat_ofNat_lt (by omega)] at hn
    have h58 : Char.toNat (':') = 58 := rfl
    omega
  · exact h

theorem isRustWhitespace_toAsciiLower (c : Char) :
    isRustWhitespace (toAsciiLower c) = isRustWhitespace c := by
  rw [← Bool.coe_iff_coe]
  simp only [isRustWhitespace, Bool.or_eq_true, Bool.and_eq_true, decide_eq_true_eq]
  rw [toAsciiLower_toNat]
  split_ifs with h <;> constructor <;> intro hh <;> omega

theorem trimChars_map_lower (l : List Char) :
    trimChars (l.map toAsciiLower) = (trimChars l).map toAsciiLower := by
  have hws : (isRustWhitespace ∘ toAsciiLower) = isRustWhitespace :=
    funext isRustWhitespace_toAsciiLower
  rw [trimChars, trimChars, List.dropWhile_map, hws, ← List.map_reverse,
    List.dropWhile_map, hws, ← List.map_reverse]

theorem eqIgnoreAsciiCase_map_lower (a b : List Char) :
    eqIgnoreAsciiCase (a.map toAsciiLower) b = eqIgnoreAsciiCase a b := by
  have hcomp : toAsciiLower ∘ toAsciiLower = toAsciiLower := by
    funext c
    exact toAsciiLower_idem c
  rw [eqIgnoreAsciiCase, eqIgnoreAsciiCase, List.map_map, hcomp]

theorem colon_not_mem_map_lower (a : List Char) (h : (':') ∉ a) :
    (':') ∉ a.map toAsciiLower := by
  intro hmem
  rw [List.mem_map] at hmem
  obtain ⟨x, hx, hlx⟩ := hmem
  by_cases hx' : x = (':')
  · exact h (hx' ▸ hx)
  · exact toAsciiLower_ne_colon x hx' hlx

/-! ### Decimal parsing lemmas -/

theorem parseU64_cons (x : Char) (xs : List Char) (h : ¬ x = ('+')) :
    parseU64 (x :: xs) = parseU64Core (x :: xs) := by
  unfold parseU64
  split
  · next heq =>
    rw [List.cons.injEq] at heq
    exact absurd heq.1 h
  · rfl

theorem digitsValAux_all_digits (l : List Char) :
    ∀ (a n : Nat), digitsValAux a l = some n → ∀ c ∈ l, isAsciiDigit c = true := by
  induction l with
  | nil => intro a n _ c hc; exact absurd hc (List.not_mem_nil c)
  | cons x xs ih =>
    intro a n h c hc
    rw [digitsValAux] at h
    by_cases hx : isAsciiDigit x = true
    · rw [if_pos hx] at h
      rcases List.mem_cons.mp hc with hcx | hcm
      · rw [hcx]; exact hx
      · exact ih _ n h c hcm
    · rw [if_neg hx] at h
      exact Option.noConfusion h

theorem parseU64_overflow (v : List Char) (n : Nat)
    (hd : digitsVal v = some n) (hge : 2 ^ 64 ≤ n) : parseU64 v = none := by
  cases v with
  | nil =>
    rw [digitsVal, digitsValAux, Option.some.injEq] at hd
    omega
  | cons x xs =>
    have hx : ¬ x = ('+') := by
      intro hp
      have := digitsValAux_all_digits (x :: xs) 0 n hd x (by simp)
      rw [hp] at this
      exact absurd this (by decide)
    rw [parseU64_cons x xs hx, parseU64Core, if_neg (by simp), hd]
    simp only []
    rw [if_neg (by omega)]

theorem parseU64_neg (v : List Char) : parseU64 (('-') :: v) = none := by
  rw [parseU64_cons ('-') v (by decide), parseU64Core, if_neg (by simp),
    digitsVal, digitsValAux, if_neg (by decide)]

theorem parseU64_plus_ok (v : List Char) (n : Nat)
    (hd : digitsVal v = some n) (hne : v ≠ []) (hlt : n < 2 ^ 64) :
    parseU64 (('+') :: v) = some n := by
  have h0 : parseU64 (('+') :: v) = parseU64Core v := rfl
  rw [h0, parseU64Core, if_neg (by simpa using hne), hd]
  simp only []
  rw [if_pos hlt]

theorem parseU64_digits_ok (v : List Char) (n : Nat)
    (hd : digitsVal v = some n) (hne : v ≠ []) (hlt : n < 2 ^ 64) :
    parseU64 v = some n := by
  cases v with
  | nil => exact absurd rfl hne
  | cons x xs =>
    have hx : ¬ x = ('+') := by
      intro hp
      have := digitsValAux_all_digits (x :: xs) 0 n hd x (by simp)
      rw [hp] at this
      exact absurd this (by decide)
    rw [parseU64_cons x xs hx, parseU64Core, if_neg (by simp), hd]
    simp only []
    rw [if_pos hlt]

theorem dropWhile_all_neg (p : Char → Bool) (l : List Char)
    (h : ∀ c ∈ l, p c = false) : l.dropWhile p = l := by
  cases l with
  | nil => rfl
  | cons x xs =>
    rw [List.dropWhile_cons, if_neg]
    rw [h x (by simp)]
    simp

theorem takeWhile_all_pos (p : Char → Bool) (l : List Char)
    (h : ∀ c ∈ l, p c = true) : l.takeWhile p = l := by
  induction l with
  | nil => rfl
  | cons x xs ih =>
    rw [List.takeWhile_cons, if_pos (h x (by simp)), ih (fun c hc => h c (by simp [hc]))]

theorem trimChars_no_ws (l : List Char)
    (h : ∀ c ∈ l, isRustWhitespace c = false) : trimChars l = l := by
  rw [trimChars, dropWhile_all_neg _ l h,
    dropWhile_all_neg _ l.reverse (fun c hc => h c (List.mem_reverse.mp hc)),
    List.reverse_reverse]

theorem digit_not_ws (c : Char) (h : isAsciiDigit c = true) :
    isRustWhitespace c = false := by
  simp only [isAsciiDigit, Bool.and_eq_true, decide_eq_true_eq] at h
  rw [Bool.eq_false_iff]
  intro hw
  simp only [isRustWhitespace, Bool.or_eq_true, Bool.and_eq_true, decide_eq_true_eq] at hw
  omega

theorem from_header_no_colon (value : String)
    (h : splitOnceAux (':') value.data = none) : from_header value = none := by
  simp [from_header, h]

theorem from_header_split (value : String) (nm v : List Char)
    (h : splitOnceAux (':') value.data = some (nm, v)) :
    from_header value
      = if eqIgnoreAsciiCase (trimChars nm) (("Cache-Control").data) then fromValueChars v
        else none := by
  simp [from_header, h]

theorem from_value_max_age_eq (w : List Char)
    (hnc : (',') ∉ w) (hne : ('=') ∉ w)
    (hnw : ∀ c ∈ w, isRustWhitespace c = false) :
    from_value (String.mk (("max-age=").data ++ w))
      = match parseU64 w with
        | some n => some { max_age := some n }
        | none => none := by
  have htok : (',') ∉ (("max-age=").data ++ w) := by
    intro hm
    rcases List.mem_append.mp hm with hm1 | hm2
    · exact absurd hm1 (by decide)
    · exact hnc hm2
  have hsplit : splitOn (',') (("max-age=").data ++ w) = [("max-age=").data ++ w] :=
    splitOn_no_sep (',') _ htok
  have htake : w.takeWhile (fun x => x != ('=')) = w :=
    takeWhile_all_pos _ w (fun c hc => bne_iff_ne.mpr (fun hce => hne (hce ▸ hc)))
  have hkv : keyVal (("max-age=").data ++ w) = ((("max-age").data), some w) := by
    have h0 : keyVal ((("max-age").data) ++ ('=') :: w)
        = (trimChars (("max-age").data),
           some (trimChars (w.takeWhile (fun x => x != ('='))))) :=
      keyVal_with_eq (("max-age").data) w (by decide)
    rw [show (("max-age=").data ++ w) = ((("max-age").data) ++ ('=') :: w) from rfl, h0,
      htake, trimChars_no_ws w hnw,
      show trimChars (("max-age").data) = ("max-age").data from by decide]
  have h0 : from_value (String.mk (("max-age=").data ++ w))
      = fromValueLoop {} (splitOn (',') (("max-age=").data ++ w)) := rfl
  rw [h0, hsplit]
  cases hp : parseU64 w with
  | none =>
    have hbad : badNumericToken (("max-age=").data ++ w) = true := by
      rw [badNumericToken, hkv,
        show (((("max-age").data), some w)).1 = ("max-age").data from rfl,
        show (((("max-age").data), some w)).2 = some w from rfl,
        show (some w).bind parseU64 = parseU64 w from rfl, hp]
      decide
    rw [fromValueLoop_cons_none {} _ [] ((processToken_none_iff {} _).mpr hbad)]
  | some n =>
    have hpt : processToken {} (("max-age=").data ++ w)
        = some { max_age := some n } :=
      pt_maxAge {} _ n (by rw [hkv]) (by rw [hkv]; exact hp)
    rw [fromValueLoop_cons_some {} _ _ [] hpt]
    rfl

theorem from_value_max_stale_eq (w : List Char)
    (hnc : (',') ∉ w) (hne : ('=') ∉ w)
    (hnw : ∀ c ∈ w, isRustWhitespace c = false) :
    from_value (String.mk (("max-stale=").data ++ w))
      = match parseU64 w with
        | some n => some { max_stale := some n }
        | none => none := by
  have htok : (',') ∉ (("max-stale=").data ++ w) := by
    intro hm
    rcases List.mem_append.mp hm with hm1 | hm2
    · exact absurd hm1 (by decide)
    · exact hnc hm2
  have hsplit : splitOn (',') (("max-stale=").data ++ w) = [("max-stale=").data ++ w] :=
    splitOn_no_sep (',') _ htok
  have htake : w.takeWhile (fun x => x != ('=')) = w :=
    takeWhile_all_pos _ w (fun c hc => bne_iff_ne.mpr (fun hce => hne (hce ▸ hc)))
  have hkv : keyVal (("max-stale=").data ++ w) = ((("max-stale").data), some w) := by
    have h0 : keyVal ((("max-stale").data) ++ ('=') :: w)
        = (trimChars (("max-stale").data),
           some (trimChars (w.takeWhile (fun x => x != ('='))))) :=
      keyVal_with_eq (("max-stale").data) w (by decide)
    rw [show (("max-stale=").data ++ w) = ((("max-stale").data) ++ ('=') :: w) from rfl, h0,
      htake, trimChars_no_ws w hnw,
      show trimChars (("max-stale").data) = ("max-stale").data from by decide]
  have h0 : from_value (String.mk (("max-stale=").data ++ w))
      = fromValueLoop {} (splitOn (',') (("max-stale=").data ++ w)) := rfl
  rw [h0, hsplit]
  cases hp : parseU64 w with
  | none =>
    have hbad : badNumericToken (("max-stale=").data ++ w) = true := by
      rw [badNumericToken, hkv,
        show (((("max-stale").data), some w)).1 = ("max-stale").data from rfl,
        show (((("max-stale").data), some w)).2 = some w from rfl,
        show (some w).bind parseU64 = parseU64 w from rfl, hp]
      decide
    rw [fromValueLoop_cons_none {} _ [] ((processToken_none_iff {} _).mpr hbad)]
  | some n =>
    have hpt : processToken {} (("max-stale=").data ++ w)
        = some { max_stale := some n } :=
      pt_maxStale {} _ n (by rw [hkv]) (by rw [hkv]; exact hp)
    rw [fromValueLoop_cons_some {} _ _ [] hpt]
    rfl

theorem from_value_min_fresh_eq (w : List Char)
    (hnc : (',') ∉ w) (hne : ('=') ∉ w)
    (hnw : ∀ c ∈ w, isRustWhitespace c = false) :
    from_value (String.mk (("min-fresh=").data ++ w))
      = match parseU64 w with
        | some n => some { min_fresh := some n }
        | none => none := by
  have htok : (',') ∉ (("min-fresh=").data ++ w) := by
    intro hm
    rcases List.mem_append.mp hm with hm1 | hm2
    · exact absurd hm1 (by decide)
    · exact hnc hm2
  have hsplit : splitOn (',') (("min-fresh=").data ++ w) = [("min-fresh=").data ++ w] :=
    splitOn_no_sep (',') _ htok
  have htake : w.takeWhile (fun x => x != ('=')) = w :=
    takeWhile_all_pos _ w (fun c hc => bne_iff_ne.mpr (fun hce => hne (hce ▸ hc)))
  have hkv : keyVal (("min-fresh=").data ++ w) = ((("min-fresh").data), some w) := by
    have h0 : keyVal ((("min-fresh").data) ++ ('=') :: w)
        = (trimChars (("min-fresh").data),
           some (trimChars (w.takeWhile (fun x => x != ('='))))) :=
      keyVal_with_eq (("min-fresh").data) w (by decide)
    rw [show (("min-fresh=").data ++ w) = ((("min-fresh").data) ++ ('=') :: w) from rfl, h0,
      htake, trimChars_no_ws w hnw,
      show trimChars (("min-fresh").data) = ("min-fresh").data from by decide]
  have h0 : from_value (String.mk (("min-fresh=").data ++ w))
      = fromValueLoop {} (splitOn (',') (("min-fresh=").data ++ w)) := rfl
  rw [h0, hsplit]
  cases hp : parseU64 w with
  | none =>
    have hbad : badNumericToken (("min-fresh=").data ++ w) = true := by
      rw [badNumericToken, hkv,
        show (((("min-fresh").data), some w)).1 = ("min-fresh").data from rfl,
        show (((("min-fresh").data), some w)).2 = some w from rfl,
        show (some w).bind parseU64 = parseU64 w from rfl, hp]
      decide
    rw [fromValueLoop_cons_none {} _ [] ((processToken_none_iff {} _).mpr hbad)]
  | some n =>
    have hpt : processToken {} (("min-fresh=").data ++ w)
        = some { min_fresh := some n } :=
      pt_minFresh {} _ n (by rw [hkv]) (by rw [hkv]; exact hp)
    rw [fromValueLoop_cons_some {} _ _ [] hpt]
    rfl

theorem orO_none_right (a : Option α) : orO a none = a := by
  cases a <;> rfl

theorem fromValueChars_fields (v : List Char) (r : CacheControl)
    (h : fromValueChars v = some r) :
    r.cachability = ((splitOn (',') v).filterMap tokenCachability).getLast? ∧
    r.max_age = ((splitOn (',') v).filterMap tokenMaxAge).getLast? ∧
    r.s_max_age = none ∧
    r.max_stale = ((splitOn (',') v).filterMap tokenMaxStale).getLast? ∧
    r.min_fresh = ((splitOn (',') v).filterMap tokenMinFresh).getLast? ∧
    r.must_revalidate = (splitOn (',') v).any (fun t => hasKey t (("must-revalidate").data)) ∧
    r.proxy_revalidate = (splitOn (',') v).any (fun t => hasKey t (("proxy-revalidate").data)) ∧
    r.immutable = (splitOn (',') v).any (fun t => hasKey t (("immutable").data)) ∧
    r.no_store = (splitOn (',') v).any (fun t => hasKey t (("no-store").data)) ∧
    r.no_transform = (splitOn (',') v).any (fun t => hasKey t (("no-transform").data)) := by
  obtain ⟨hc, ha, hsa, hst, hmf, hmr, hpr, him, hns, hnt⟩ :=
    fromValueLoop_fields (splitOn (',') v) {} r h
  exact ⟨hc.trans (orO_none_right _), ha.trans (orO_none_right _), hsa,
    hst.trans (orO_none_right _), hmf.trans (orO_none_right _),
    hmr.trans (Bool.false_or _), hpr.trans (Bool.false_or _), him.trans (Bool.false_or _),
    hns.trans (Bool.false_or _), hnt.trans (Bool.false_or _)⟩

theorem hasKey_eq (t k : List Char) (h : hasKey t k = true) : (keyVal t).1 = k := by
  simp only [hasKey, beq_iff_eq] at h
  exact h

/-! ### Claims -/

/-- C1, counterexample to the claim as stated: in `from_value` the value part of
a token is NOT the entire remainder after the first `'='`.  For the token
`"max-age=6=0"` the value part is `"6"` (the segment between the first and the
second `'='`), so the parse succeeds with `max_age = 6` instead of failing. -/
theorem C1_counterexample :
    (keyVal (("max-age=6=0").data)).2 = some (("6").data) ∧
    from_value ("max-age=6=0") = some { max_age := some 6 } := by
  decide

/-- C1 (amended): every comma-separated token is split on `'='` into segments,
the key part is the first segment and the value part is the second segment when
one exists (both whitespace-trimmed; the value part is absent when the token
contains no `'='`, and segments after the second are dropped); consequently for
`"max-age=6=0"` the value part is `"6"` and the parse succeeds with
`max_age = 6`. -/
theorem C1_token_split :
    (∀ a b : List Char, ('=') ∉ a →
      keyVal (a ++ ('=') :: b)
        = (trimChars a, some (trimChars (b.takeWhile (fun x => x != ('=')))))) ∧
    (∀ t : List Char, ('=') ∉ t → keyVal t = (trimChars t, none)) ∧
    from_value ("max-age=6=0") = some { max_age := some 6 } :=
  ⟨keyVal_with_eq, keyVal_no_eq, by decide⟩

/-- C1, witness: the split of the token `"max-age=6=0"` at its first `'='`. -/
theorem C1_witness :
    keyVal (("max-age").data ++ ('=') :: ("6=0").data)
      = (trimChars (("max-age").data),
         some (trimChars ((("6=0").data).takeWhile (fun x => x != ('='))))) :=
  C1_token_split.1 (("max-age").data) (("6=0").data) (by decide)

/-- C2: `from_value` returns `none` exactly when some token has a numeric key
(`max-age`, `max-stale`, `min-fresh`) whose value part is absent or fails
integer parsing — one bad numeric directive invalidates the whole header even
when other tokens are valid; and a numeric token that does parse sets the
corresponding duration field to that many seconds. -/
theorem C2_numeric_failure (value : String) :
    (from_value value = none ↔ ∃ t ∈ splitOn (',') value.data, badNumericToken t = true) ∧
    (∀ (s : CacheControl) (t : List Char) (n : Nat),
      (keyVal t).2.bind parseU64 = some n →
      ((keyVal t).1 = ("max-age").data → processToken s t = some { s with max_age := some n }) ∧
      ((keyVal t).1 = ("max-stale").data →
        processToken s t = some { s with max_stale := some n }) ∧
      ((keyVal t).1 = ("min-fresh").data →
        processToken s t = some { s with min_fresh := some n })) :=
  ⟨fromValueLoop_none_iff (splitOn (',') value.data) {},
   fun s t n hv =>
     ⟨fun hk => pt_maxAge s t n hk hv, fun hk => pt_maxStale s t n hk hv,
      fun hk => pt_minFresh s t n hk hv⟩⟩

/-- C2, witness: a bad `max-age` invalidates the parse despite a valid token. -/
theorem C2_witness : from_value ("max-age=abc,public") = none :=
  (C2_numeric_failure ("max-age=abc,public")).1.mpr
    ⟨("max-age=abc").data, by decide, by decide⟩

/-- C3: `from_header` fails on a string without a colon, otherwise splits at the
first colon, trims the name and compares it case-insensitively with
`"Cache-Control"`, failing on a mismatch and otherwise delegating the untrimmed
remainder to `from_value`; in particular `from_header "foo"` and
`from_header "bar: max-age=60"` are both `none`. -/
theorem C3_from_header_contract (value : String) :
    ((':') ∉ value.data → from_header value = none) ∧
    (∀ a b : List Char, value.data = a ++ (':') :: b → (':') ∉ a →
      from_header value
        = if eqIgnoreAsciiCase (trimChars a) (("Cache-Control").data)
          then from_value (String.mk b) else none) ∧
    from_header ("foo") = none ∧ from_header ("bar: max-age=60") = none := by
  refine ⟨?_, ?_, by decide, by decide⟩
  · intro h
    exact from_header_no_colon value (splitOnceAux_no_sep (':') value.data h)
  · intro a b hv ha
    have hs : splitOnceAux (':') value.data = some (a, b) := by
      rw [hv]
      exact splitOnceAux_append (':') a b ha
    exact from_header_split value a b hs

/-- C3, witness: the contract evaluated on `"Cache-Control:max-age=7"`. -/
theorem C3_witness :
    from_header ("Cache-Control:max-age=7")
      = if eqIgnoreAsciiCase (trimChars (("Cache-Control").data)) (("Cache-Control").data)
        then from_value (String.mk (("max-age=7").data)) else none :=
  (C3_from_header_contract ("Cache-Control:max-age=7")).2.1 (("Cache-Control").data)
    (("max-age=7").data) (by decide) (by decide)

/-- C4: on a successful parse each single-valued field holds the value
contributed by the last token that sets it (earlier occurrences are overwritten
without error), and at most one `Cachability` variant is recorded. -/
theorem C4_last_wins (value : String) (r : CacheControl)
    (h : from_value value = some r) :
    r.cachability = ((splitOn (',') value.data).filterMap tokenCachability).getLast? ∧
    r.max_age = ((splitOn (',') value.data).filterMap tokenMaxAge).getLast? ∧
    r.max_stale = ((splitOn (',') value.data).filterMap tokenMaxStale).getLast? ∧
    r.min_fresh = ((splitOn (',') value.data).filterMap tokenMinFresh).getLast? := by
  obtain ⟨hc, ha, hsa, hst, hmf, hrest⟩ := fromValueChars_fields value.data r h
  exact ⟨hc, ha, hst, hmf⟩

/-- C4, witness: duplicated `max-age` and cachability directives, last wins. -/
theorem C4_witness :
    ({ cachability := some Cachability.Private, max_age := some 2 } : CacheControl).cachability
      = ((splitOn (',') (("max-age=1,max-age=2,public,private").data)).filterMap
          tokenCachability).getLast? ∧
    ({ cachability := some Cachability.Private, max_age := some 2 } : CacheControl).max_age
      = ((splitOn (',') (("max-age=1,max-age=2,public,private").data)).filterMap
          tokenMaxAge).getLast? ∧
    ({ cachability := some Cachability.Private, max_age := some 2 } : CacheControl).max_stale
      = ((splitOn (',') (("max-age=1,max-age=2,public,private").data)).filterMap
          tokenMaxStale).getLast? ∧
    ({ cachability := some Cachability.Private, max_age := some 2 } : CacheControl).min_fresh
      = ((splitOn (',') (("max-age=1,max-age=2,public,private").data)).filterMap
          tokenMinFresh).getLast? :=
  C4_last_wins ("max-age=1,max-age=2,public,private")
    { cachability := some Cachability.Private, max_age := some 2 } (by decide)

/-- C5: the `s_max_age` field of any record returned by `from_value` or
`from_header` is `none`; no dispatch case populates it. -/
theorem C5_s_max_age_never (value : String) (r : CacheControl) :
    (from_value value = some r → r.s_max_age = none) ∧
    (from_header value = some r → r.s_max_age = none) := by
  constructor
  · intro h
    exact (fromValueChars_fields value.data r h).2.2.1
  · intro h
    cases hsp : splitOnceAux (':') value.data with
    | none =>
      rw [from_header_no_colon value hsp] at h
      exact Option.noConfusion h
    | some p =>
      rw [from_header_split value p.1 p.2 (by rw [hsp])] at h
      split_ifs at h with hcc
      exact (fromValueChars_fields p.2 r h).2.2.1

/-- C5, witness: a successful parse of `"max-age=60"` has `s_max_age = none`. -/
theorem C5_witness : ({ max_age := some 60 } : CacheControl).s_max_age = none :=
  (C5_s_max_age_never ("max-age=60") { max_age := some 60 }).1 (by decide)

/-- C6: the empty value parses to the all-default record (no cachability, no
durations, all booleans false), and `from_header "Cache-Control: "` returns the
same all-default record, equal to `from_value ""`. -/
theorem C6_empty_default :
    from_value ("") = some
      { cachability := none, max_age := none, s_max_age := none, max_stale := none,
        min_fresh := none, must_revalidate := false, proxy_revalidate := false,
        immutable := false, no_store := false, no_transform := false } ∧
    from_header ("Cache-Control: ") = from_value ("") ∧
    from_header ("Cache-Control: ") = some
      { cachability := none, max_age := none, s_max_age := none, max_stale := none,
        min_fresh := none, must_revalidate := false, proxy_revalidate := false,
        immutable := false, no_store := false, no_transform := false } := by
  decide

/-- C7: directive names are matched with exact case in `from_value` (a key with
an ASCII uppercase letter is never recognized, e.g. `"Public"` and
`"MAX-AGE=60"` are ignored as unknown), while the header field name in
`from_header` is compared case-insensitively (lowercasing the name part of the
header line never changes the result, and `"cache-control: public"` parses). -/
theorem C7_case_sensitivity :
    (∀ (s : CacheControl) (t : List Char),
      (∃ c ∈ (keyVal t).1, 65 ≤ c.toNat ∧ c.toNat ≤ 90) → processToken s t = some s) ∧
    (∀ a b : List Char, (':') ∉ a →
      from_header (String.mk (a.map toAsciiLower ++ (':') :: b))
        = from_header (String.mk (a ++ (':') :: b))) ∧
    from_value ("Public") = some {} ∧
    from_value ("MAX-AGE=60") = some {} ∧
    from_header ("cache-control: public") = some { cachability := some Cachability.Public } := by
  refine ⟨?_, ?_, by decide, by decide, by decide⟩
  · rintro s t ⟨c, hc, hup⟩
    apply pt_unknown
    have hne : ∀ lit : List Char, (∀ x ∈ lit, ¬(65 ≤ x.toNat ∧ x.toNat ≤ 90)) →
        ¬ (keyVal t).1 = lit := by
      intro lit hl he
      exact hl c (he ▸ hc) hup
    simp only [knownKey, Bool.or_eq_false_iff, beq_eq_false_iff_ne, ne_eq]
    refine ⟨⟨⟨⟨⟨⟨⟨⟨⟨⟨⟨?_, ?_⟩, ?_⟩, ?_⟩, ?_⟩, ?_⟩, ?_⟩, ?_⟩, ?_⟩, ?_⟩, ?_⟩, ?_⟩ <;>
      exact hne _ (by decide)
  · intro a b ha
    have ha' : (':') ∉ a.map toAsciiLower := colon_not_mem_map_lower a ha
    rw [from_header_split (String.mk (a.map toAsciiLower ++ (':') :: b)) (a.map toAsciiLower) b
        (splitOnceAux_append (':') (a.map toAsciiLower) b ha'),
      from_header_split (String.mk (a ++ (':') :: b)) a b (splitOnceAux_append (':') a b ha),
      trimChars_map_lower, eqIgnoreAsciiCase_map_lower]

/-- C7, witness: the uppercase key `"Public"` is ignored by the dispatch. -/
theorem C7_witness : processToken {} (("Public").data) = some {} :=
  C7_case_sensitivity.1 {} (("Public").data) ⟨'P', by decide, by decide, by decide⟩

/-- C8: each boolean directive sets exactly its boolean field to `true`, a value
part attached to such a token is ignored without failure (`"no-store=0"`), and
on success each boolean field is the logical OR over all occurrences of the
corresponding directive. -/
theorem C8_boolean_directives (value : String) (r : CacheControl)
    (h : from_value value = some r) :
    (r.must_revalidate
        = (splitOn (',') value.data).any (fun t => hasKey t (("must-revalidate").data))) ∧
    (r.proxy_revalidate
        = (splitOn (',') value.data).any (fun t => hasKey t (("proxy-revalidate").data))) ∧
    (r.immutable = (splitOn (',') value.data).any (fun t => hasKey t (("immutable").data))) ∧
    (r.no_store = (splitOn (',') value.data).any (fun t => hasKey t (("no-store").data))) ∧
    (r.no_transform
        = (splitOn (',') value.data).any (fun t => hasKey t (("no-transform").data))) ∧
    (∀ (s : CacheControl) (t : List Char),
      (hasKey t (("must-revalidate").data) = true →
        processToken s t = some { s with must_revalidate := true }) ∧
      (hasKey t (("proxy-revalidate").data) = true →
        processToken s t = some { s with proxy_revalidate := true }) ∧
      (hasKey t (("immutable").data) = true →
        processToken s t = some { s with immutable := true }) ∧
      (hasKey t (("no-store").data) = true →
        processToken s t = some { s with no_store := true }) ∧
      (hasKey t (("no-transform").data) = true →
        processToken s t = some { s with no_transform := true })) ∧
    from_value ("no-store=0") = some { no_store := true } := by
  obtain ⟨hc, ha, hsa, hst, hmf, hmr, hpr, him, hns, hnt⟩ :=
    fromValueChars_fields value.data r h
  refine ⟨hmr, hpr, him, hns, hnt, ?_, by decide⟩
  intro s t
  exact ⟨fun hk => pt_mustRevalidate s t (hasKey_eq t _ hk),
    fun hk => pt_proxyRevalidate s t (hasKey_eq t _ hk),
    fun hk => pt_immutable s t (hasKey_eq t _ hk),
    fun hk => pt_noStore s t (hasKey_eq t _ hk),
    fun hk => pt_noTransform s t (hasKey_eq t _ hk)⟩

/-- C8, witness: `"no-store=0"` sets `no_store` and its value part is ignored. -/
theorem C8_witness :
    ({ no_store := true } : CacheControl).no_store
      = (splitOn (',') (("no-store=0").data)).any (fun t => hasKey t (("no-store").data)) :=
  (C8_boolean_directives ("no-store=0") { no_store := true } (by decide)).2.2.2.1

/-- C9: tokens whose trimmed key is outside the fixed directive vocabulary
(including empty tokens from doubled commas) leave the record unchanged and do
not fail; `from_value` returns `none` only when some numeric directive token is
bad, and returns a record for every other input. -/
theorem C9_unknown_ignored :
    (∀ (s : CacheControl) (t : List Char),
      knownKey (keyVal t).1 = false → processToken s t = some s) ∧
    (∀ value : String,
      (∀ t ∈ splitOn (',') value.data, badNumericToken t = false) →
      ∃ r, from_value value = some r) ∧
    from_value (",,foo,@#$,=x,") = some {} := by
  refine ⟨pt_unknown, ?_, by decide⟩
  intro value hall
  cases hfv : from_value value with
  | some r => exact ⟨r, rfl⟩
  | none =>
    obtain ⟨t, ht, hbad⟩ := (fromValueLoop_none_iff (splitOn (',') value.data) {}).mp hfv
    rw [hall t ht] at hbad
    exact Bool.noConfusion hbad

/-- C9, witness: the unknown key `"foo"` leaves the record unchanged. -/
theorem C9_witness : processToken {} (("foo").data) = some {} :=
  C9_unknown_ignored.1 {} (("foo").data) (by decide)

/-- C10: numeric directive values follow `u64` semantics for each of the three
numeric directives (`max-age`, `max-stale`, `min-fresh`): a decimal value of
`2 ^ 64` or more fails the whole parse, any negative value fails, and a value
with a leading plus sign followed by in-range digits parses to that number of
seconds. -/
theorem C10_u64_semantics :
    (∀ (v : List Char) (n : Nat), digitsVal v = some n → 2 ^ 64 ≤ n →
      from_value (String.mk (("max-age=").data ++ v)) = none ∧
      from_value (String.mk (("max-stale=").data ++ v)) = none ∧
      from_value (String.mk (("min-fresh=").data ++ v)) = none) ∧
    (∀ (v : List Char) (n : Nat), digitsVal v = some n →
      from_value (String.mk (("max-age=-").data ++ v)) = none ∧
      from_value (String.mk (("max-stale=-").data ++ v)) = none ∧
      from_value (String.mk (("min-fresh=-").data ++ v)) = none) ∧
    (∀ (v : List Char) (n : Nat), digitsVal v = some n → v ≠ [] → n < 2 ^ 64 →
      from_value (String.mk (("max-age=+").data ++ v)) = some { max_age := some n } ∧
      from_value (String.mk (("max-stale=+").data ++ v)) = some { max_stale := some n } ∧
      from_value (String.mk (("min-fresh=+").data ++ v)) = some { min_fresh := some n }) ∧
    from_value ("max-age=18446744073709551616") = none ∧
    from_value ("max-stale=18446744073709551616") = none ∧
    from_value ("min-fresh=18446744073709551616") = none ∧
    from_value ("max-age=-1") = none ∧
    from_value ("max-stale=-1") = none ∧
    from_value ("min-fresh=-1") = none ∧
    from_value ("max-age=+60") = some { max_age := some 60 } ∧
    from_value ("max-stale=+60") = some { max_stale := some 60 } ∧
    from_value ("min-fresh=+60") = some { min_fresh := some 60 } := by
  refine ⟨?_, ?_, ?_, by decide, by decide, by decide, by decide, by decide, by decide,
    by decide, by decide, by decide⟩
  · intro v n hd hge
    have hdig : ∀ c ∈ v, isAsciiDigit c = true := digitsValAux_all_digits v 0 n hd
    have hnc : (',') ∉ v := fun hm => absurd (hdig _ hm) (by decide)
    have hne : ('=') ∉ v := fun hm => absurd (hdig _ hm) (by decide)
    have hnw : ∀ c ∈ v, isRustWhitespace c = false := fun c hc => digit_not_ws c (hdig c hc)
    refine ⟨?_, ?_, ?_⟩
    · rw [from_value_max_age_eq v hnc hne hnw, parseU64_overflow v n hd hge]
    · rw [from_value_max_stale_eq v hnc hne hnw, parseU64_overflow v n hd hge]
    · rw [from_value_min_fresh_eq v hnc hne hnw, parseU64_overflow v n hd hge]
  · intro v n hd
    have hdig : ∀ c ∈ v, isAsciiDigit c = true := digitsValAux_all_digits v 0 n hd
    have hnc : (',') ∉ ('-') :: v := by
      intro hm
      rcases List.mem_cons.mp hm with h1 | h2
      · exact absurd h1 (by decide)
      · exact absurd (hdig _ h2) (by decide)
    have hne : ('=') ∉ ('-') :: v := by
      intro hm
      rcases List.mem_cons.mp hm with h1 | h2
      · exact absurd h1 (by decide)
      · exact absurd (hdig _ h2) (by decide)
    have hnw : ∀ c ∈ ('-') :: v, isRustWhitespace c = false := by
      intro c hc
      rcases List.mem_cons.mp hc with h1 | h2
      · rw [h1]; decide
      · exact digit_not_ws c (hdig c h2)
    refine ⟨?_, ?_, ?_⟩
    · rw [show from_value (String.mk (("max-age=-").data ++ v))
            = from_value (String.mk (("max-age=").data ++ ('-') :: v)) from rfl,
        from_value_max_age_eq _ hnc hne hnw, parseU64_neg v]
    · rw [show from_value (String.mk (("max-stale=-").data ++ v))
            = from_value (String.mk (("max-stale=").data ++ ('-') :: v)) from rfl,
        from_value_max_stale_eq _ hnc hne hnw, parseU64_neg v]
    · rw [show from_value (String.mk (("min-fresh=-").data ++ v))
            = from_value (String.mk (("min-fresh=").data ++ ('-') :: v)) from rfl,
        from_value_min_fresh_eq _ hnc hne hnw, parseU64_neg v]
  · intro v n hd hvne hlt
    have hdig : ∀ c ∈ v, isAsciiDigit c = true := digitsValAux_all_digits v 0 n hd
    have hnc : (',') ∉ ('+') :: v := by
      intro hm
      rcases List.mem_cons.mp hm with h1 | h2
      · exact absurd h1 (by decide)
      · exact absurd (hdig _ h2) (by decide)
    have hne : ('=') ∉ ('+') :: v := by
      intro hm
      rcases List.mem_cons.mp hm with h1 | h2
      · exact absurd h1 (by decide)
      · exact absurd (hdig _ h2) (by decide)
    have hnw : ∀ c ∈ ('+') :: v, isRustWhitespace c = false := by
      intro c hc
      rcases List.mem_cons.mp hc with h1 | h2
      · rw [h1]; decide
      · exact digit_not_ws c (hdig c h2)
    refine ⟨?_, ?_, ?_⟩
    · rw [show from_value (String.mk (("max-age=+").data ++ v))
            = from_value (String.mk (("max-age=").data ++ ('+') :: v)) from rfl,
        from_value_max_age_eq _ hnc hne hnw, parseU64_plus_ok v n hd hvne hlt]
    · rw [show from_value (String.mk (("max-stale=+").data ++ v))
            = from_value (String.mk (("max-stale=").data ++ ('+') :: v)) from rfl,
        from_value_max_stale_eq _ hnc hne hnw, parseU64_plus_ok v n hd hvne hlt]
    · rw [show from_value (String.mk (("min-fresh=+").data ++ v))
            = from_value (String.mk (("min-fresh=").data ++ ('+') :: v)) from rfl,
        from_value_min_fresh_eq _ hnc hne hnw, parseU64_plus_ok v n hd hvne hlt]

/-- C10, witness: `"max-age=+60"`, `"max-stale=+60"` and `"min-fresh=+60"`
built from the digit list `"60"` all parse to 60 seconds. -/
theorem C10_witness :
    from_value (String.mk (("max-age=+").data ++ ("60").data))
      = some { max_age := some 60 } ∧
    from_value (String.mk (("max-stale=+").data ++ ("60").data))
      = some { max_stale := some 60 } ∧
    from_value (String.mk (("min-fresh=+").data ++ ("60").data))
      = some { min_fresh := some 60 } :=
  C10_u64_semantics.2.2.1 (("60").data) 60 (by decide) (by decide) (by decide)
